import Mathlib

/-!
Shallow embedding of the contact-manager core in `src/main.py`: the validated
value objects (`Phone`, `Birthday`), `Record` with its phone operations, and
`AddressBook` with `delete`, `find` and `get_upcoming_birthdays`.  Python's
`datetime` values are modelled as proleptic-Gregorian calendar triples plus a
time-of-day in microseconds; `datetime.strptime(_, "%d.%m.%Y")` is modelled by
a parser over Unicode code points; exceptions are modelled with `Except` /
explicit post-states.
-/

namespace Main

/-! ### Gregorian calendar arithmetic (model of Python `datetime.date`) -/

/-- Leap-year test of the proleptic Gregorian calendar, as used by Python's
`datetime` module: divisible by 4 and (not by 100 or by 400). -/
def isLeap (y : Nat) : Bool :=
  y % 4 == 0 && (y % 100 != 0 || y % 400 == 0)

/-- Number of days in month `m` (1-12) of year `y`, February depending on
`isLeap`. -/
def monthLen (y m : Nat) : Nat :=
  if m = 2 then (if isLeap y then 29 else 28)
  else if m = 4 ∨ m = 6 ∨ m = 9 ∨ m = 11 then 30
  else 31

/-- Days in the months `1..m` of year `y` (so `daysBefore y (m-1)` is the
number of days of year `y` that precede month `m`). -/
def daysBefore (y : Nat) : Nat → Nat
  | 0 => 0
  | m + 1 => daysBefore y m + monthLen y (m + 1)

/-- A calendar date, as held by a Python `datetime` at midnight. -/
structure Date where
  year : Nat
  month : Nat
  day : Nat
deriving DecidableEq, Repr

/-- Validity of a date triple: month in range and day within the month; the
year is only required to be positive (Python additionally caps years at 9999,
which the operations check where `datetime` would raise). -/
def Date.ValidDate (d : Date) : Prop :=
  1 ≤ d.year ∧ 1 ≤ d.month ∧ d.month ≤ 12 ∧ 1 ≤ d.day ∧ d.day ≤ monthLen d.year d.month

instance (d : Date) : Decidable d.ValidDate := by
  unfold Date.ValidDate; infer_instance

/-- Count of leap years among years `1..y-1`. -/
def leapsBefore (y : Nat) : Nat :=
  (y - 1) / 4 - (y - 1) / 100 + (y - 1) / 400

/-- Proleptic-Gregorian ordinal of a date, with `0001-01-01` as day 1 —
the same convention as Python's `date.toordinal()`. -/
def Date.toOrd (d : Date) : Nat :=
  365 * (d.year - 1) + leapsBefore d.year + daysBefore d.year (d.month - 1) + d.day

/-- Python's `datetime.weekday()`: Monday is 0, Sunday is 6.  Day 1
(0001-01-01) is a Monday. -/
def pyWeekday (d : Date) : Nat :=
  (d.toOrd - 1) % 7

/-- Successor calendar date (one day later), carrying over month and year
boundaries; this models adding `timedelta(days=1)` to a midnight datetime. -/
def succDate (d : Date) : Date :=
  if d.day < monthLen d.year d.month then ⟨d.year, d.month, d.day + 1⟩
  else if d.month < 12 then ⟨d.year, d.month + 1, 1⟩
  else ⟨d.year + 1, 1, 1⟩

/-! ### Unicode digits (model of Python's `str.isdigit` and regex `\d`) -/

/-- Decimal-digit ranges of the Unicode 14.0 character database (general
category `Nd`, equivalently `str.isdecimal`), the complete list of 62 ranges
as shipped with CPython 3.11: each pair `(lo, hi)` is an inclusive code-point
range holding the digits 0-9 of one decimal script, decade-aligned.  Python's
regex class `\d` matches exactly these code points, and `str.isdigit` accepts
them (plus the `Numeric_Type=Digit` characters listed separately below). -/
def ndRanges : List (Nat × Nat) :=
  [(0x30, 0x39), (0x660, 0x669), (0x6F0, 0x6F9), (0x7C0, 0x7C9),
   (0x966, 0x96F), (0x9E6, 0x9EF), (0xA66, 0xA6F), (0xAE6, 0xAEF),
   (0xB66, 0xB6F), (0xBE6, 0xBEF), (0xC66, 0xC6F), (0xCE6, 0xCEF),
   (0xD66, 0xD6F), (0xDE6, 0xDEF), (0xE50, 0xE59), (0xED0, 0xED9),
   (0xF20, 0xF29), (0x1040, 0x1049), (0x1090, 0x1099), (0x17E0, 0x17E9),
   (0x1810, 0x1819), (0x1946, 0x194F), (0x19D0, 0x19D9), (0x1A80, 0x1A89),
   (0x1A90, 0x1A99), (0x1B50, 0x1B59), (0x1BB0, 0x1BB9), (0x1C40, 0x1C49),
   (0x1C50, 0x1C59), (0xA620, 0xA629), (0xA8D0, 0xA8D9), (0xA900, 0xA909),
   (0xA9D0, 0xA9D9), (0xA9F0, 0xA9F9), (0xAA50, 0xAA59), (0xABF0, 0xABF9),
   (0xFF10, 0xFF19), (0x104A0, 0x104A9), (0x10D30, 0x10D39),
   (0x11066, 0x1106F), (0x110F0, 0x110F9), (0x11136, 0x1113F),
   (0x111D0, 0x111D9), (0x112F0, 0x112F9), (0x11450, 0x11459),
   (0x114D0, 0x114D9), (0x11650, 0x11659), (0x116C0, 0x116C9),
   (0x11730, 0x11739), (0x118E0, 0x118E9), (0x11950, 0x11959),
   (0x11C50, 0x11C59), (0x11D50, 0x11D59), (0x11DA0, 0x11DA9),
   (0x16A60, 0x16A69), (0x16AC0, 0x16AC9), (0x16B50, 0x16B59),
   (0x1D7CE, 0x1D7FF), (0x1E140, 0x1E149), (0x1E2F0, 0x1E2F9),
   (0x1E950, 0x1E959), (0x1FBF0, 0x1FBF9)]

/-- Membership of a code point in the Unicode `Nd` (decimal digit) category,
i.e. what Python's regex `\d` matches. -/
def isNd (cp : Nat) : Bool :=
  ndRanges.any (fun r => r.1 ≤ cp && cp ≤ r.2)

/-- Numeric value of an `Nd` code point (0 for non-digits): its offset in its
decade-aligned range, which is how `int()` evaluates such a digit. -/
def ndVal (cp : Nat) : Nat :=
  match ndRanges.find? (fun r => r.1 ≤ cp && cp ≤ r.2) with
  | some r => (cp - r.1) % 10
  | none => 0

/-- Code points accepted by `str.isdigit` but outside category `Nd`
(`Numeric_Type=Digit`: superscript, subscript, circled, Ethiopic, Kharoshthi,
Rumi, Brahmi and compatibility digits) — the complete list of 20 ranges of
the Unicode 14.0 database as shipped with CPython 3.11.  Python's
`str.isdigit` accepts these in addition to the `Nd` digits. -/
def digitTypeRanges : List (Nat × Nat) :=
  [(0xB2, 0xB3), (0xB9, 0xB9), (0x1369, 0x1371), (0x19DA, 0x19DA),
   (0x2070, 0x2070), (0x2074, 0x2079), (0x2080, 0x2089), (0x2460, 0x2468),
   (0x2474, 0x247C), (0x2488, 0x2490), (0x24EA, 0x24EA), (0x24F5, 0x24FD),
   (0x24FF, 0x24FF), (0x2776, 0x277E), (0x2780, 0x2788), (0x278A, 0x2792),
   (0x10A40, 0x10A43), (0x10E60, 0x10E68), (0x11052, 0x1105A),
   (0x1F100, 0x1F10A)]

/-- Model of Python's `str.isdigit` at the level of one code point: true for
Unicode decimal digits (`Nd`) and `Numeric_Type=Digit` characters. -/
def pyIsDigitCp (cp : Nat) : Bool :=
  isNd cp || digitTypeRanges.any (fun r => r.1 ≤ cp && cp ≤ r.2)

/-- Truthiness of a Python `str`: true exactly for non-empty strings. -/
def pyTruthy (s : String) : Bool :=
  !s.data.isEmpty

/-- Model of Python's `str.isdigit`: non-empty and every character a digit. -/
def pyStrIsdigit (s : String) : Bool :=
  pyTruthy s && s.data.all (fun c => pyIsDigitCp c.toNat)

/-! ### Model of `datetime.strptime(value, "%d.%m.%Y")`

CPython's `_strptime` (checked against CPython 3.11) compiles this format to
the anchored regex
`(?P<d>3[0-1]|[1-2]\d|0[1-9]|[1-9]| [1-9])\.(?P<m>1[0-2]|0[1-9]|[1-9])\.(?P<Y>\d\d\d\d)`
and requires the whole input to be consumed; the matched groups are converted
with `int()` and passed to the `datetime` constructor, which checks
`1 <= year <= 9999` and that the day fits the month.  Because the literal
separator `'.'` is not a digit, an input matches the regex exactly when
splitting it at the `'.'` code points yields three runs that match the day,
month and year groups respectively; the model below parses that way.  Strings
are taken as their lists of code points. -/

/-- Split a list of code points at every `'.'` (code point 46); the
separators are dropped and empty runs are kept. -/
def splitDots : List Nat → List (List Nat)
  | [] => [[]]
  | c :: rest =>
    match splitDots rest with
    | [] => [[c]]
    | g :: gs => if c = 46 then [] :: g :: gs else (c :: g) :: gs

/-- Day group `3[0-1]|[1-2]\d|0[1-9]|[1-9]| [1-9]` of the `%d` directive,
with the `int()` conversion of the matched text (the last alternative is a
literal space, code point 32, followed by an ASCII digit — `int` strips the
space). -/
def parseDay : List Nat → Option Nat
  | [a] => if 49 ≤ a ∧ a ≤ 57 then some (a - 48) else none
  | [a, b] =>
    if a = 51 ∧ (b = 48 ∨ b = 49) then some (30 + (b - 48))
    else if (a = 49 ∨ a = 50) ∧ isNd b then some (10 * (a - 48) + ndVal b)
    else if a = 48 ∧ 49 ≤ b ∧ b ≤ 57 then some (b - 48)
    else if a = 32 ∧ 49 ≤ b ∧ b ≤ 57 then some (b - 48)
    else none
  | _ => none

/-- Month group `1[0-2]|0[1-9]|[1-9]` of the `%m` directive. -/
def parseMonth : List Nat → Option Nat
  | [a] => if 49 ≤ a ∧ a ≤ 57 then some (a - 48) else none
  | [a, b] =>
    if a = 49 ∧ (48 ≤ b ∧ b ≤ 50) then some (10 + (b - 48))
    else if a = 48 ∧ 49 ≤ b ∧ b ≤ 57 then some (b - 48)
    else none
  | _ => none

/-- Year group `\d\d\d\d` of the `%Y` directive: exactly four Unicode decimal
digits, evaluated by `int()`. -/
def parseYear (l : List Nat) : Option Nat :=
  if l.length = 4 ∧ l.all isNd then
    some (l.foldl (fun acc c => 10 * acc + ndVal c) 0)
  else none

/-- Second stage of the `strptime` model: the input must consist of exactly
three dot-separated runs matching the day, month and year groups, and the
resulting numbers must form a `datetime`-constructible date (year in
`1..9999`, day within the month). -/
def parseGroups : List (List Nat) → Option Date
  | [dg, mg, yg] =>
    (parseDay dg).bind fun d =>
    (parseMonth mg).bind fun m =>
    (parseYear yg).bind fun y =>
    if 1 ≤ y ∧ y ≤ 9999 ∧ d ≤ monthLen y m then some ⟨y, m, d⟩ else none
  | _ => none

/-- Model of `datetime.strptime(value, "%d.%m.%Y")` on the code points of
`value`: `some` of the parsed date on success, `none` where Python raises
`ValueError` (pattern mismatch, year out of `1..9999`, or a day that does
not exist in the month). -/
def parseDMY (cps : List Nat) : Option Date :=
  parseGroups (splitDots cps)

/-- `datetime.strptime(s, "%d.%m.%Y")` on a string. -/
def strptimeDMY (s : String) : Option Date :=
  parseDMY (s.data.map Char.toNat)

/-! ### Value objects: `Phone.__init__` and `Birthday.__init__` -/

/-- Model of `Phone.__init__` (src/main.py:29-33): the argument (here always a
string, as in every call site) must satisfy `number.isdigit()` and have length
10, else `ValueError` is raised; on success the string is stored verbatim as
`self.value`. -/
def Phone.init (number : String) : Except String String :=
  if pyStrIsdigit number ∧ number.length = 10 then Except.ok number
  else Except.error "The phone number must be a string of 10 digits"

/-- Model of `Birthday.__init__` (src/main.py:17-24): a `None` or empty value
skips validation; a non-empty value must be accepted by
`datetime.strptime(value, "%d.%m.%Y")`, else `ValueError` is raised.  The
original text (or `None`) is stored verbatim as `self.value`. -/
def Birthday.init (value : Option String) : Except String (Option String) :=
  match value with
  | none => Except.ok none
  | some s =>
    if pyTruthy s then
      match strptimeDMY s with
      | some _ => Except.ok (some s)
      | none => Except.error "Birthday must be in format DD.MM.YYYY"
    else Except.ok (some s)

/-! ### `Record` (src/main.py:36-72)

A record holds `name.value`, the list of `phone.value` strings (phones are
compared and removed by their `value`, and `Field` objects have no custom
equality beyond that in any reachable path), and `birthday.value`, which is
`None`/a string, modelled as `Option String`. -/

structure Record where
  name : String
  phones : List String
  birthday : Option String
deriving DecidableEq, Repr

/-- Model of `Record.remove_phone` on the phone list: remove the first phone
whose `value` equals `number` (src/main.py:49-54). -/
def removeFirstPhone (phones : List String) (number : String) : List String :=
  match phones with
  | [] => []
  | p :: rest => if p = number then rest else p :: removeFirstPhone rest number

/-- Model of `Record.find_phone` (src/main.py:64-68): first phone whose value
equals `number`, or `None`. -/
def Record.find_phone (r : Record) (number : String) : Option String :=
  r.phones.find? (fun p => p == number)

/-- Model of `Record.edit_phone` (src/main.py:56-62) with explicit post-state:
the returned `Record` is the state of the object after the call, and the
`Option String` is the raised exception message if any.  If `old` is found the
method calls `add_phone(new)` — whose `Phone(new)` validation runs before the
append, so a `ValueError` there leaves the list untouched — and then
`remove_phone(old)`; if `old` is not found it raises `ValueError`. -/
def Record.edit_phone (r : Record) (old new : String) : Record × Option String :=
  match r.find_phone old with
  | some _ =>
    match Phone.init new with
    | Except.error e => (r, some e)
    | Except.ok p =>
      let r1 : Record := { r with phones := r.phones ++ [p] }
      ({ r1 with phones := removeFirstPhone r1.phones old }, none)
  | none => (r, some ("Old number " ++ old ++ " not found"))

/-- Python's `f"{x}"` on an optional string value: `None` prints as "None". -/
def pyStrOfOpt : Option String → String
  | none => "None"
  | some s => s

/-- Truthiness of the `Birthday` object held by a record: `Birthday` defines
neither `__bool__` nor `__len__`, so the object is always truthy — regardless
of whether its `value` is `None`. -/
def birthdayObjTruthy (_ : Option String) : Bool := true

/-- Model of `Record.__str__` (src/main.py:70-72): the birthday suffix is
guarded by `if self.birthday`, the truthiness of the `Birthday` object
itself. -/
def Record.render (r : Record) : String :=
  let birthdayStr :=
    if birthdayObjTruthy r.birthday then ", birthday: " ++ pyStrOfOpt r.birthday
    else ""
  "Contact name: " ++ r.name ++ ", phones: " ++
    String.intercalate "; " r.phones ++ birthdayStr

/-! ### `AddressBook` (src/main.py:75-116)

The book is a Python dict from name to record; it is modelled as an
association list in insertion order.  A dict never holds two entries with the
same key, so theorems that need it assume the keys are nodup. -/

abbrev Book := List (String × Record)

/-- Model of `AddressBook.find` (src/main.py:79-80): `self.data.get(name)`. -/
def findB (book : Book) (name : String) : Option Record :=
  (List.find? (fun e => e.1 == name) book).map Prod.snd

/-- Model of `AddressBook.delete` (src/main.py:82-86): `del self.data[name]`
when present, else `ValueError`.  Since dict keys are unique, deleting the key
is removing every entry carrying it. -/
def deleteB (book : Book) (name : String) : Except String Book :=
  if List.any book (fun e => e.1 == name) then
    Except.ok (List.filter (fun e => !(e.1 == name)) book)
  else
    Except.error ("Record with name " ++ name ++ " not found.")

/-! ### `get_upcoming_birthdays` (src/main.py:88-116) -/

/-- Microseconds in a day; `datetime` subtraction and comparison resolve to
this granularity. -/
def microsPerDay : Nat := 86400000000

/-- The value of `datetime.now()` at query time: a calendar date plus the
time of day in microseconds (`tod < microsPerDay`). -/
structure PyNow where
  date : Date
  tod : Nat
deriving DecidableEq, Repr

/-- Microsecond timestamp of `datetime.now()`. -/
def PyNow.micros (now : PyNow) : Nat :=
  now.date.toOrd * microsPerDay + now.tod

/-- Model of `dt.replace(year=y)` on a midnight datetime `dt`: keeps month and
day, raises `ValueError` when the resulting triple is not a real date or the
year leaves `1..9999` (e.g. February 29 projected onto a non-leap year). -/
def replaceYear (bd : Date) (y : Nat) : Except String Date :=
  if 1 ≤ y ∧ y ≤ 9999 ∧ 1 ≤ bd.day ∧ bd.day ≤ monthLen y bd.month then
    Except.ok ⟨y, bd.month, bd.day⟩
  else Except.error "day is out of range for month"

/-- Strict `datetime` comparison `midnight(d) < now`. -/
def midnightBefore (d : Date) (now : PyNow) : Prop :=
  d.toOrd * microsPerDay < now.micros

instance (d : Date) (now : PyNow) : Decidable (midnightBefore d now) := by
  unfold midnightBefore; infer_instance

/-- Lines 99-102 of src/main.py: project the parsed birthday onto the current
year; if that midnight datetime is strictly before `datetime.now()`, replace
the year with next year. -/
def rolledCandidate (bd : Date) (now : PyNow) : Except String Date := do
  let ty ← replaceYear bd now.date.year
  if midnightBefore ty now then replaceYear bd (now.date.year + 1)
  else pure ty

/-- Model of `dt + timedelta(days=k)` on a midnight datetime: `k` successor
days, raising `OverflowError` when the result leaves `datetime`'s year range
(at the year-9999 boundary). -/
def checkedAddDays (k : Nat) (d : Date) : Except String Date :=
  let d' := succDate^[k] d
  if d'.year ≤ 9999 then Except.ok d' else Except.error "date value out of range"

/-- Lines 104-107 of src/main.py: Saturday (`weekday() == 5`) moves forward by
two days, Sunday (`weekday() == 6`) by one day, anything else is unchanged. -/
def weekendShift (d : Date) : Except String Date :=
  if pyWeekday d = 5 then checkedAddDays 2 d
  else if pyWeekday d = 6 then checkedAddDays 1 d
  else Except.ok d

/-- The candidate date used for the inclusion test and the output: the rolled
candidate after the single weekend adjustment. -/
def adjustedCandidate (bd : Date) (now : PyNow) : Except String Date :=
  rolledCandidate bd now >>= weekendShift

/-- Line 108 of src/main.py: `(this_year_birthday - today).days`, the floored
whole-day difference of the two datetimes. -/
def daysUntil (d : Date) (now : PyNow) : Int :=
  Int.fdiv ((d.toOrd : Int) * (microsPerDay : Int) - (now.micros : Int))
    (microsPerDay : Int)

/-- Left-pad a numeral with zeros to the given width, as `strftime`'s
zero-padded numeric directives do. -/
def padNum (width n : Nat) : String :=
  let s := toString n
  String.mk (List.replicate (width - s.length) '0') ++ s

/-- Model of `strftime("%d.%m.%Y")` on a midnight datetime. -/
def renderDate (d : Date) : String :=
  padNum 2 d.day ++ "." ++ padNum 2 d.month ++ "." ++ padNum 4 d.year

/-- Body of the loop of `get_upcoming_birthdays` for one record: `none` when
the record contributes nothing (no truthy birthday value, unparseable text, or
a candidate outside the 0..7-day window), `some` of the rendered adjusted date
when the record is included, and `Except.error` when the body raises past the
`try`/`except` (which guards only the `strptime` call). -/
def processRecord (r : Record) (now : PyNow) : Except String (Option String) :=
  match r.birthday with
  | none => Except.ok none
  | some s =>
    if pyTruthy s then
      match strptimeDMY s with
      | none => Except.ok none
      | some bd => do
        let cand ← adjustedCandidate bd now
        if 0 ≤ daysUntil cand now ∧ daysUntil cand now ≤ 7 then
          pure (some (renderDate cand))
        else pure none
    else Except.ok none

/-- Model of `AddressBook.get_upcoming_birthdays` (src/main.py:88-116),
parameterised by the `datetime.now()` value: the list of
`{"name": ..., "birthday": ...}` entries in iteration order, or the first
uncaught exception. -/
def get_upcoming_birthdays (book : Book) (now : PyNow) :
    Except String (List (String × String)) :=
  match book with
  | [] => Except.ok []
  | (n, r) :: rest => do
    let o ← processRecord r now
    let tail ← get_upcoming_birthdays rest now
    pure ((o.map (fun ds => (n, ds))).toList ++ tail)

/-! ### Spec-side predicates

These two definitions follow the words of the specification and of the claims
(not the source); they exist to be compared against the embedded code. -/

/-- Spec's phone validity ("a string of exactly 10 ASCII digits"): length 10
and every character an ASCII decimal digit `0`-`9`. -/
def specAsciiPhone (s : String) : Bool :=
  s.length = 10 && s.data.all (fun c => 48 ≤ c.toNat && c.toNat ≤ 57)

/-- Spec's strict birthday shape ("two-digit day, two-digit month, four-digit
year", separated by dots, denoting a calendar-valid Gregorian date). -/
def specStrictShape (s : String) : Bool :=
  match s.data with
  | [d1, d2, dot1, m1, m2, dot2, y1, y2, y3, y4] =>
    dot1 = '.' && dot2 = '.' &&
    [d1, d2, m1, m2, y1, y2, y3, y4].all (fun c => 48 ≤ c.toNat && c.toNat ≤ 57) &&
    (let d := 10 * (d1.toNat - 48) + (d2.toNat - 48)
     let m := 10 * (m1.toNat - 48) + (m2.toNat - 48)
     let y := 1000 * (y1.toNat - 48) + 100 * (y2.toNat - 48) +
              10 * (y3.toNat - 48) + (y4.toNat - 48)
     decide (Date.ValidDate ⟨y, m, d⟩))
  | _ => false

/-! ### Concrete instances used by witnesses and counterexamples -/

/-- A query instant: Monday 2024-06-10 at 10:00:00 local time. -/
def nowMon10June : PyNow := ⟨⟨2024, 6, 10⟩, 36000000000⟩

/-- A query instant at exactly midnight of Monday 2024-06-10. -/
def nowMonMidnight : PyNow := ⟨⟨2024, 6, 10⟩, 0⟩

/-- A query instant in the non-leap year 2025. -/
def nowNonLeap : PyNow := ⟨⟨2025, 3, 1⟩, 0⟩

/-- A record with a single phone, as in the spec's `edit_phone` example. -/
def recX : Record := ⟨"X", ["1111111111"], none⟩

/-- A record with two phones. -/
def recY : Record := ⟨"Y", ["1111111111", "3333333333"], none⟩

/-- A record whose birthday falls two days after `nowMon10June`. -/
def recA : Record := ⟨"A", [], some "12.06.1990"⟩

/-- A one-record book whose record's birthday falls two days after
`nowMon10June`. -/
def bookJune : Book := [("A", recA)]

/-- A one-record book whose record's stored birthday is February 29 of the
leap year 2000. -/
def bookFeb29 : Book := [("Bob", ⟨"Bob", [], some "29.02.2000"⟩)]

/-! ### Helper lemmas -/

instance {ε α : Type} [DecidableEq ε] [DecidableEq α] : DecidableEq (Except ε α) :=
  fun x y =>
    match x, y with
    | .ok a, .ok b =>
      if h : a = b then isTrue (by rw [h]) else
        isFalse (by intro hc; injection hc; contradiction)
    | .error a, .error b =>
      if h : a = b then isTrue (by rw [h]) else
        isFalse (by intro hc; injection hc; contradiction)
    | .ok _, .error _ => isFalse (by intro hc; cases hc)
    | .error _, .ok _ => isFalse (by intro hc; cases hc)

theorem removeFirstPhone_append_left {l1 : List String} (l2 : List String)
    {x : String} (h : x ∈ l1) :
    removeFirstPhone (l1 ++ l2) x = removeFirstPhone l1 x ++ l2 := by
  induction l1 with
  | nil => cases h
  | cons p rest ih =>
    by_cases hp : p = x
    · simp [removeFirstPhone, hp]
    · rcases List.mem_cons.mp h with h' | h'
      · exact absurd h'.symm hp
      · simp [removeFirstPhone, hp, ih h']

theorem find_phone_of_mem {r : Record} {x : String} (h : x ∈ r.phones) :
    ∃ q, r.find_phone x = some q := by
  unfold Record.find_phone
  have : (r.phones.find? (fun p => p == x)).isSome := by
    rw [List.find?_isSome]
    exact ⟨x, h, by simp⟩
  exact Option.isSome_iff_exists.mp this

theorem monthLen_pos (y m : Nat) : 1 ≤ monthLen y m := by
  unfold monthLen
  split
  · split <;> omega
  · split <;> omega

theorem daysBefore_succ_month (y k : Nat) :
    daysBefore y (k + 1) = daysBefore y k + monthLen y (k + 1) := rfl

theorem leapsBefore_succ (y : Nat) (hy : 1 ≤ y) :
    leapsBefore (y + 1) = leapsBefore y + (if isLeap y then 1 else 0) := by
  unfold leapsBefore isLeap
  have h1 : y + 1 - 1 = y := by omega
  rw [h1]
  by_cases h4 : y % 4 = 0 <;> by_cases h100 : y % 100 = 0 <;> by_cases h400 : y % 400 = 0 <;>
    simp [h4, h100, h400] <;> omega

theorem succDate_spec (d : Date) (h : d.ValidDate) :
    (succDate d).toOrd = d.toOrd + 1 ∧ (succDate d).ValidDate := by
  obtain ⟨hy, hm1, hm2, hd1, hd2⟩ := h
  unfold succDate
  by_cases hlt : d.day < monthLen d.year d.month
  · rw [if_pos hlt]
    constructor
    · show 365 * (d.year - 1) + leapsBefore d.year + daysBefore d.year (d.month - 1) + (d.day + 1)
        = 365 * (d.year - 1) + leapsBefore d.year + daysBefore d.year (d.month - 1) + d.day + 1
      omega
    · exact ⟨hy, hm1, hm2, show 1 ≤ d.day + 1 by omega,
        show d.day + 1 ≤ monthLen d.year d.month by omega⟩
  · rw [if_neg hlt]
    have hdm : d.day = monthLen d.year d.month := by omega
    by_cases hm12 : d.month < 12
    · rw [if_pos hm12]
      constructor
      · show 365 * (d.year - 1) + leapsBefore d.year + daysBefore d.year (d.month + 1 - 1) + 1
          = 365 * (d.year - 1) + leapsBefore d.year + daysBefore d.year (d.month - 1) + d.day + 1
        have h2 : d.month + 1 - 1 = (d.month - 1) + 1 := by omega
        rw [h2, daysBefore_succ_month]
        have h3 : d.month - 1 + 1 = d.month := by omega
        rw [h3, ← hdm]
        omega
      · exact ⟨hy, show 1 ≤ d.month + 1 by omega, show d.month + 1 ≤ 12 by omega,
          show (1 : Nat) ≤ 1 from le_refl 1,
          show 1 ≤ monthLen d.year (d.month + 1) from monthLen_pos _ _⟩
    · rw [if_neg hm12]
      have hm : d.month = 12 := by omega
      have hday : d.day = 31 := by rw [hdm, hm]; rfl
      have hdb : daysBefore d.year 11 = 306 + monthLen d.year 2 := by
        simp [daysBefore, monthLen]
        omega
      constructor
      · show 365 * (d.year + 1 - 1) + leapsBefore (d.year + 1) + daysBefore (d.year + 1) 0 + 1
          = 365 * (d.year - 1) + leapsBefore d.year + daysBefore d.year (d.month - 1) + d.day + 1
        rw [hm, hday, show (12 : Nat) - 1 = 11 from rfl, hdb,
          leapsBefore_succ d.year hy, show d.year + 1 - 1 = d.year from by omega]
        simp only [daysBefore]
        by_cases hleap : isLeap d.year
        · rw [show monthLen d.year 2 = 29 from by simp [monthLen, hleap]]
          rw [if_pos hleap]
          omega
        · rw [show monthLen d.year 2 = 28 from by simp [monthLen, hleap]]
          rw [if_neg hleap]
          omega
      · exact ⟨show 1 ≤ d.year + 1 by omega, show (1 : Nat) ≤ 1 from le_refl 1,
          show (1 : Nat) ≤ 12 by omega, show (1 : Nat) ≤ 1 from le_refl 1,
          show 1 ≤ monthLen (d.year + 1) 1 from monthLen_pos _ _⟩

theorem monthLen_le31 (y m : Nat) : monthLen y m ≤ 31 := by
  unfold monthLen
  split
  · split <;> omega
  · split <;> omega

theorem ndVal_lt (cp : Nat) : ndVal cp < 10 := by
  unfold ndVal
  cases h : ndRanges.find? (fun r => r.1 ≤ cp && cp ≤ r.2) with
  | none => show (0 : Nat) < 10; omega
  | some r => show (cp - r.1) % 10 < 10; omega

theorem ascii_isNd {b : Nat} (h1 : 48 ≤ b) (h2 : b ≤ 57) : isNd b = true := by
  unfold isNd
  rw [List.any_eq_true]
  refine ⟨(48, 57), by simp [ndRanges], ?_⟩
  simp
  omega

theorem ascii_ndVal {b : Nat} (h1 : 48 ≤ b) (h2 : b ≤ 57) : ndVal b = b - 48 := by
  unfold ndVal
  have hf : ndRanges.find? (fun r => r.1 ≤ b && b ≤ r.2) = some (48, 57) := by
    unfold ndRanges
    rw [List.find?_cons_of_pos]
    simp
    omega
  rw [hf]
  show (b - 48) % 10 = b - 48
  omega

theorem splitDots_cons (c : Nat) (rest : List Nat) :
    splitDots (c :: rest) =
      match splitDots rest with
      | [] => [[c]]
      | g :: gs => if c = 46 then [] :: g :: gs else (c :: g) :: gs := rfl

theorem splitDots_ne_nil (l : List Nat) : splitDots l ≠ [] := by
  cases l with
  | nil => simp [splitDots]
  | cons c rest =>
    rw [splitDots_cons]
    rcases hs : splitDots rest with _ | ⟨g, gs⟩
    · simp
    · by_cases hc : c = 46 <;> simp [hc]

theorem splitDots_append (l1 l2 : List Nat) (h : ∀ c ∈ l1, c ≠ 46) :
    splitDots (l1 ++ 46 :: l2) = l1 :: splitDots l2 := by
  induction l1 with
  | nil =>
    rw [List.nil_append, splitDots_cons]
    rcases hs : splitDots l2 with _ | ⟨g, gs⟩
    · exact absurd hs (splitDots_ne_nil l2)
    · simp
  | cons a t ih =>
    have ha : a ≠ 46 := h a (by simp)
    have ih' := ih (fun c hc => h c (by simp [hc]))
    rw [List.cons_append, splitDots_cons, ih']
    simp [ha]

theorem splitDots_no_dot (l : List Nat) (h : ∀ c ∈ l, c ≠ 46) :
    splitDots l = [l] := by
  induction l with
  | nil => rfl
  | cons a t ih =>
    have ha : a ≠ 46 := h a (by simp)
    have ih' := ih (fun c hc => h c (by simp [hc]))
    rw [splitDots_cons, ih']
    simp [ha]

theorem parseDay_strict {a b d : Nat} (ha1 : 48 ≤ a) (ha2 : a ≤ 57)
    (hb1 : 48 ≤ b) (hb2 : b ≤ 57) (hd : d = 10 * (a - 48) + (b - 48))
    (h1 : 1 ≤ d) (h31 : d ≤ 31) : parseDay [a, b] = some d := by
  rw [hd]
  rcases (show a = 48 ∨ a = 49 ∨ a = 50 ∨ a = 51 by omega)
      with rfl | rfl | rfl | rfl <;>
    rcases (show b = 48 ∨ b = 49 ∨ b = 50 ∨ b = 51 ∨ b = 52 ∨ b = 53 ∨ b = 54 ∨
        b = 55 ∨ b = 56 ∨ b = 57 by omega)
      with rfl | rfl | rfl | rfl | rfl | rfl | rfl | rfl | rfl | rfl <;>
    first
      | decide
      | (exfalso; omega)

theorem parseMonth_strict {a b m : Nat} (ha1 : 48 ≤ a) (ha2 : a ≤ 57)
    (hb1 : 48 ≤ b) (hb2 : b ≤ 57) (hm : m = 10 * (a - 48) + (b - 48))
    (h1 : 1 ≤ m) (h12 : m ≤ 12) : parseMonth [a, b] = some m := by
  rw [hm]
  rcases (show a = 48 ∨ a = 49 by omega) with rfl | rfl <;>
    rcases (show b = 48 ∨ b = 49 ∨ b = 50 ∨ b = 51 ∨ b = 52 ∨ b = 53 ∨ b = 54 ∨
        b = 55 ∨ b = 56 ∨ b = 57 by omega)
      with rfl | rfl | rfl | rfl | rfl | rfl | rfl | rfl | rfl | rfl <;>
    first
      | decide
      | (exfalso; omega)

theorem parseYear_strict {a b c e y : Nat} (ha1 : 48 ≤ a) (ha2 : a ≤ 57)
    (hb1 : 48 ≤ b) (hb2 : b ≤ 57) (hc1 : 48 ≤ c) (hc2 : c ≤ 57)
    (he1 : 48 ≤ e) (he2 : e ≤ 57)
    (hy : y = 1000 * (a - 48) + 100 * (b - 48) + 10 * (c - 48) + (e - 48)) :
    parseYear [a, b, c, e] = some y := by
  unfold parseYear
  rw [if_pos]
  · simp only [List.foldl]
    rw [ascii_ndVal ha1 ha2, ascii_ndVal hb1 hb2, ascii_ndVal hc1 hc2,
      ascii_ndVal he1 he2]
    simp only [Option.some.injEq]
    omega
  · refine ⟨by simp, ?_⟩
    simp only [List.all_eq_true]
    intro x hx
    simp only [List.mem_cons, List.not_mem_nil, or_false] at hx
    rcases hx with rfl | rfl | rfl | rfl <;>
      exact ascii_isNd (by omega) (by omega)

theorem parseDay_bounds {l : List Nat} {d : Nat} (h : parseDay l = some d) :
    1 ≤ d ∧ d ≤ 31 := by
  have hnd := ndVal_lt
  rcases l with _ | ⟨a, _ | ⟨b, _ | ⟨c, t⟩⟩⟩
  · simp [parseDay] at h
  · simp only [parseDay] at h
    split_ifs at h with h1
    simp only [Option.some.injEq] at h
    omega
  · simp only [parseDay] at h
    split_ifs at h with h1 h2 h3 h4 <;>
      simp only [Option.some.injEq] at h
    · omega
    · have := hnd b
      omega
    · omega
    · omega
  · simp [parseDay] at h

theorem parseMonth_bounds {l : List Nat} {m : Nat} (h : parseMonth l = some m) :
    1 ≤ m ∧ m ≤ 12 := by
  rcases l with _ | ⟨a, _ | ⟨b, _ | ⟨c, t⟩⟩⟩
  · simp [parseMonth] at h
  · simp only [parseMonth] at h
    split_ifs at h with h1
    simp only [Option.some.injEq] at h
    omega
  · simp only [parseMonth] at h
    split_ifs at h with h1 h2 <;>
      simp only [Option.some.injEq] at h
    · omega
    · omega
  · simp [parseMonth] at h


theorem strptime_some_valid {s : String} {dt : Date}
    (h : strptimeDMY s = some dt) :
    dt.ValidDate ∧ dt.year ≤ 9999 := by
  unfold strptimeDMY parseDMY at h
  rcases hsp : splitDots (s.data.map Char.toNat) with _ | ⟨g1, _ | ⟨g2, _ | ⟨g3, _ | ⟨g4, t⟩⟩⟩⟩ <;>
    rw [hsp] at h
  · simp [parseGroups] at h
  · simp [parseGroups] at h
  · simp [parseGroups] at h
  case cons.cons.cons.nil =>
    simp only [parseGroups] at h
    rcases Option.bind_eq_some.mp h with ⟨d, hpd, h2⟩
    rcases Option.bind_eq_some.mp h2 with ⟨m, hpm, h3⟩
    rcases Option.bind_eq_some.mp h3 with ⟨y, hpy, h4⟩
    split_ifs at h4 with hcond
    simp only [Option.some.injEq] at h4
    obtain ⟨hy1, hy2, hdm⟩ := hcond
    have hdb := parseDay_bounds hpd
    have hmb := parseMonth_bounds hpm
    subst h4
    exact ⟨⟨hy1, hmb.1, hmb.2, hdb.1, hdm⟩, hy2⟩
  case cons.cons.cons.cons =>
    simp [parseGroups] at h

theorem parseDMY_grouped {a1 a2 a3 a4 a5 a6 a7 a8 d m y : Nat}
    (b1 : 48 ≤ a1) (b1' : a1 ≤ 57) (b2 : 48 ≤ a2) (b2' : a2 ≤ 57)
    (b3 : 48 ≤ a3) (b3' : a3 ≤ 57) (b4 : 48 ≤ a4) (b4' : a4 ≤ 57)
    (b5 : 48 ≤ a5) (b5' : a5 ≤ 57) (b6 : 48 ≤ a6) (b6' : a6 ≤ 57)
    (b7 : 48 ≤ a7) (b7' : a7 ≤ 57) (b8 : 48 ≤ a8) (b8' : a8 ≤ 57)
    (hd : d = 10 * (a1 - 48) + (a2 - 48))
    (hm : m = 10 * (a3 - 48) + (a4 - 48))
    (hy : y = 1000 * (a5 - 48) + 100 * (a6 - 48) + 10 * (a7 - 48) + (a8 - 48))
    (hvalid : Date.ValidDate ⟨y, m, d⟩) (hy9999 : y ≤ 9999) :
    parseDMY [a1, a2, 46, a3, a4, 46, a5, a6, a7, a8] = some ⟨y, m, d⟩ := by
  have hy1 : 1 ≤ y := hvalid.1
  have hm1 : 1 ≤ m := hvalid.2.1
  have hm2 : m ≤ 12 := hvalid.2.2.1
  have hd1 : 1 ≤ d := hvalid.2.2.2.1
  have hd2 : d ≤ monthLen y m := hvalid.2.2.2.2
  have h31 : d ≤ 31 := le_trans hd2 (monthLen_le31 y m)
  have hsplit : splitDots [a1, a2, 46, a3, a4, 46, a5, a6, a7, a8]
      = [[a1, a2], [a3, a4], [a5, a6, a7, a8]] := by
    have e1 : [a1, a2, 46, a3, a4, 46, a5, a6, a7, a8]
        = [a1, a2] ++ 46 :: ([a3, a4] ++ 46 :: [a5, a6, a7, a8]) := by simp
    rw [e1, splitDots_append _ _ (by intro c hc; simp at hc; omega),
      splitDots_append _ _ (by intro c hc; simp at hc; omega),
      splitDots_no_dot _ (by intro c hc; simp at hc; omega)]
  unfold parseDMY
  rw [hsplit]
  simp only [parseGroups]
  rw [parseDay_strict b1 b1' b2 b2' hd (by omega) h31,
    parseMonth_strict b3 b3' b4 b4' hm hm1 hm2,
    parseYear_strict b5 b5' b6 b6' b7 b7' b8 b8' hy]
  simp only [Option.some_bind]
  rw [if_pos ⟨hy1, hy9999, hd2⟩]

theorem specStrictShape_accepted (s : String) (h : specStrictShape s = true) :
    Birthday.init (some s) = Except.ok (some s) := by
  unfold specStrictShape at h
  split at h
  case h_2 => exact absurd h (by simp)
  case h_1 d1 d2 dot1 m1 m2 dot2 y1 y2 y3 y4 heq =>
    simp only [Bool.and_eq_true, decide_eq_true_eq, List.all_eq_true,
      List.mem_cons, List.not_mem_nil, or_false] at h
    obtain ⟨⟨⟨hdot1, hdot2⟩, hdig⟩, hvalid⟩ := h
    have g1 := hdig d1 (by tauto)
    have g2 := hdig d2 (by tauto)
    have g3 := hdig m1 (by tauto)
    have g4 := hdig m2 (by tauto)
    have g5 := hdig y1 (by tauto)
    have g6 := hdig y2 (by tauto)
    have g7 := hdig y3 (by tauto)
    have g8 := hdig y4 (by tauto)
    have e3 : dot1.toNat = 46 := by rw [hdot1]; rfl
    have e6 : dot2.toNat = 46 := by rw [hdot2]; rfl
    have hparse : strptimeDMY s = some
        ⟨1000 * (y1.toNat - 48) + 100 * (y2.toNat - 48) + 10 * (y3.toNat - 48) + (y4.toNat - 48),
         10 * (m1.toNat - 48) + (m2.toNat - 48),
         10 * (d1.toNat - 48) + (d2.toNat - 48)⟩ := by
      unfold strptimeDMY
      rw [heq]
      simp only [List.map_cons, List.map_nil]
      rw [e3, e6]
      exact parseDMY_grouped g1.1 g1.2 g2.1 g2.2 g3.1 g3.2 g4.1 g4.2
        g5.1 g5.2 g6.1 g6.2 g7.1 g7.2 g8.1 g8.2 rfl rfl rfl hvalid (by omega)
    have htr : pyTruthy s = true := by
      unfold pyTruthy
      rw [heq]
      rfl
    simp [Birthday.init, htr, hparse]

theorem strptime_pyTruthy {s : String} {dt : Date}
    (h : strptimeDMY s = some dt) : pyTruthy s = true := by
  cases hd : s.data with
  | nil =>
    unfold strptimeDMY parseDMY at h
    rw [hd] at h
    simp [splitDots, parseGroups] at h
  | cons c t =>
    unfold pyTruthy
    rw [hd]
    rfl

theorem replaceYear_feb29 {bd : Date} {y : Nat} (hm2 : bd.month = 2)
    (hd29 : bd.day = 29) (hnl : isLeap y = false) :
    replaceYear bd y = Except.error "day is out of range for month" := by
  unfold replaceYear
  rw [if_neg]
  rintro ⟨-, -, -, h4⟩
  rw [hm2, hd29] at h4
  have : monthLen y 2 = 28 := by simp [monthLen, hnl]
  omega

theorem processRecord_error_feb29 {r : Record} {now : PyNow} {s : String}
    {bd : Date} (hb : r.birthday = some s) (hp : strptimeDMY s = some bd)
    (hm2 : bd.month = 2) (hd29 : bd.day = 29)
    (hnl : isLeap now.date.year = false) :
    processRecord r now = Except.error "day is out of range for month" := by
  have htr := strptime_pyTruthy hp
  have hrep := replaceYear_feb29 (y := now.date.year) hm2 hd29 hnl
  unfold processRecord
  rw [hb]
  simp only [htr, if_true, hp]
  unfold adjustedCandidate rolledCandidate
  rw [hrep]
  rfl

theorem getUB_error_of_mem (book : Book) (now : PyNow) (n : String) (r : Record)
    (hmem : (n, r) ∈ book) (hpr : ∃ e0, processRecord r now = Except.error e0) :
    ∃ e, get_upcoming_birthdays book now = Except.error e := by
  obtain ⟨e0, hpr⟩ := hpr
  induction book with
  | nil => cases hmem
  | cons hd tl ih =>
    obtain ⟨n0, r0⟩ := hd
    rcases List.mem_cons.mp hmem with heq | htl
    · have hr : r0 = r := (Prod.mk.injEq _ _ _ _ ▸ heq.symm).2
      subst hr
      exact ⟨e0, by simp [get_upcoming_birthdays, hpr, Bind.bind, Except.bind, Functor.map, Except.map]⟩
    · cases hpr0 : processRecord r0 now with
      | error e1 => exact ⟨e1, by simp [get_upcoming_birthdays, hpr0, Bind.bind, Except.bind, Functor.map, Except.map]⟩
      | ok o =>
        obtain ⟨e, he⟩ := ih htl
        exact ⟨e, by simp [get_upcoming_birthdays, hpr0, he, Bind.bind, Except.bind, Functor.map, Except.map]⟩

theorem processRecord_some_iff (r : Record) (now : PyNow) (ds : String) :
    processRecord r now = Except.ok (some ds) ↔
    ∃ s bd cand, r.birthday = some s ∧ pyTruthy s = true ∧
      strptimeDMY s = some bd ∧ adjustedCandidate bd now = Except.ok cand ∧
      0 ≤ daysUntil cand now ∧ daysUntil cand now ≤ 7 ∧ ds = renderDate cand := by
  constructor
  · intro h
    unfold processRecord at h
    cases hb : r.birthday with
    | none => rw [hb] at h; simp at h
    | some s =>
      rw [hb] at h
      by_cases htr : pyTruthy s
      · simp only [htr, if_true] at h
        cases hsp : strptimeDMY s with
        | none => simp only [hsp] at h; simp at h
        | some bd =>
          simp only [hsp] at h
          cases hac : adjustedCandidate bd now with
          | error e =>
            rw [hac] at h
            simp [Bind.bind, Except.bind] at h
          | ok cand =>
            rw [hac] at h
            simp only [Bind.bind, Except.bind] at h
            split_ifs at h with hcond
            · simp only [Pure.pure, Except.pure, Except.ok.injEq,
                Option.some.injEq] at h
              exact ⟨s, bd, cand, rfl, htr, hsp, hac, hcond.1, hcond.2, h.symm⟩
            · simp [Pure.pure, Except.pure] at h
      · simp only [Bool.not_eq_true] at htr
        simp only [htr, Bool.false_eq_true, if_false] at h
        simp at h
  · rintro ⟨s, bd, cand, hb, htr, hsp, hac, h0, h7, hds⟩
    unfold processRecord
    rw [hb]
    simp only [htr, if_true, hsp, hac]
    simp only [Bind.bind, Except.bind]
    rw [if_pos ⟨h0, h7⟩, hds]
    rfl

theorem processRecord_none (r : Record) (now : PyNow) (hb : r.birthday = none) :
    processRecord r now = Except.ok none := by
  unfold processRecord
  rw [hb]

theorem getUB_ok_entries (book : Book) (now : PyNow)
    (res : List (String × String))
    (h : get_upcoming_birthdays book now = Except.ok res) :
    ∀ n ds, (n, ds) ∈ res →
      ∃ r, (n, r) ∈ book ∧ processRecord r now = Except.ok (some ds) := by
  induction book generalizing res with
  | nil =>
    intro n ds hin
    unfold get_upcoming_birthdays at h
    simp only [Except.ok.injEq] at h
    subst h
    cases hin
  | cons hd tl ih =>
    obtain ⟨n0, r0⟩ := hd
    intro n ds hin
    unfold get_upcoming_birthdays at h
    cases hpr : processRecord r0 now with
    | error e => rw [hpr] at h; simp [Bind.bind, Except.bind] at h
    | ok o =>
      rw [hpr] at h
      cases hub : get_upcoming_birthdays tl now with
      | error e =>
        rw [hub] at h
        simp [Bind.bind, Except.bind, Functor.map, Except.map] at h
      | ok tail =>
        rw [hub] at h
        simp only [Bind.bind, Except.bind, Functor.map, Except.map,
          Pure.pure, Except.pure, Except.ok.injEq] at h
        subst h
        rcases List.mem_append.mp hin with hopt | htail
        · cases o with
          | none => simp at hopt
          | some ds0 =>
            simp at hopt
            obtain ⟨hn, hds⟩ := hopt
            subst hn
            subst hds
            exact ⟨r0, List.mem_cons_self _ _, hpr⟩
        · obtain ⟨r, hr, hpr2⟩ := ih tail hub n ds htail
          exact ⟨r, List.mem_cons_of_mem _ hr, hpr2⟩

theorem getUB_ok_included (book : Book) (now : PyNow)
    (res : List (String × String))
    (h : get_upcoming_birthdays book now = Except.ok res) :
    ∀ n r ds, (n, r) ∈ book → processRecord r now = Except.ok (some ds) →
      (n, ds) ∈ res := by
  induction book generalizing res with
  | nil =>
    intro n r ds hin
    cases hin
  | cons hd tl ih =>
    obtain ⟨n0, r0⟩ := hd
    intro n r ds hin hpr
    unfold get_upcoming_birthdays at h
    cases hpr0 : processRecord r0 now with
    | error e => rw [hpr0] at h; simp [Bind.bind, Except.bind] at h
    | ok o =>
      rw [hpr0] at h
      cases hub : get_upcoming_birthdays tl now with
      | error e =>
        rw [hub] at h
        simp [Bind.bind, Except.bind, Functor.map, Except.map] at h
      | ok tail =>
        rw [hub] at h
        simp only [Bind.bind, Except.bind, Functor.map, Except.map,
          Pure.pure, Except.pure, Except.ok.injEq] at h
        subst h
        rcases List.mem_cons.mp hin with heq | htl
        · have hn : n0 = n := ((Prod.mk.injEq _ _ _ _).mp heq.symm).1
          have hr : r0 = r := ((Prod.mk.injEq _ _ _ _).mp heq.symm).2
          subst hn
          subst hr
          rw [hpr0] at hpr
          simp only [Except.ok.injEq] at hpr
          subst hpr
          exact List.mem_append_left _ (by simp)
        · exact List.mem_append_right _ (ih tail hub n r ds htl hpr)

theorem keys_nodup_unique {book : Book} (hnd : (book.map Prod.fst).Nodup)
    {n : String} {r1 r2 : Record} (h1 : (n, r1) ∈ book) (h2 : (n, r2) ∈ book) :
    r1 = r2 := by
  induction book with
  | nil => cases h1
  | cons hd tl ih =>
    simp only [List.map_cons, List.nodup_cons] at hnd
    rcases List.mem_cons.mp h1 with e1 | m1 <;> rcases List.mem_cons.mp h2 with e2 | m2
    · rw [← e1] at e2
      exact (((Prod.mk.injEq _ _ _ _).mp e2).2).symm
    · exfalso
      apply hnd.1
      have hx : n ∈ tl.map Prod.fst := List.mem_map_of_mem Prod.fst m2
      rw [← e1]
      exact hx
    · exfalso
      apply hnd.1
      have hx : n ∈ tl.map Prod.fst := List.mem_map_of_mem Prod.fst m1
      rw [← e2]
      exact hx
    · exact ih hnd.2 m1 m2

theorem findB_mem {book : Book} {name : String} {r : Record}
    (h : findB book name = some r) : (name, r) ∈ book := by
  unfold findB at h
  cases he : List.find? (fun e => e.1 == name) book with
  | none => rw [he] at h; simp at h
  | some e =>
    rw [he] at h
    simp at h
    have hmem := List.mem_of_find?_eq_some he
    have hkey := List.find?_some he
    simp only [beq_iff_eq] at hkey
    obtain ⟨e1, e2⟩ := e
    simp only at hkey h
    rw [← hkey, ← h]
    exact hmem

/-! ### Claim theorems -/

/-- C6: `edit_phone(old, new)` fails with the not-found error when `old` is
not among the record's phones, and whenever it fails for any reason the
record's phone list is exactly what it was before the call. -/
theorem c6_edit_phone_failure (r : Record) (old nw : String) :
    (r.find_phone old = none ↔ ∀ p ∈ r.phones, p ≠ old) ∧
    (r.find_phone old = none →
      r.edit_phone old nw = (r, some ("Old number " ++ old ++ " not found"))) ∧
    (∀ e, (r.edit_phone old nw).2 = some e → (r.edit_phone old nw).1 = r) := by
  refine ⟨?_, ?_, ?_⟩
  · simp [Record.find_phone, List.find?_eq_none]
  · intro h
    simp [Record.edit_phone, h]
  · intro e
    unfold Record.edit_phone
    cases hf : r.find_phone old with
    | none => simp
    | some q =>
      cases hp : Phone.init nw with
      | error msg => simp
      | ok p => simp

/-- C6 witness: editing via an absent old number on a concrete record raises
the not-found error and returns the untouched record. -/
theorem c6_edit_phone_failure_witness :
    recX.edit_phone "9999999999" "2222222222"
      = (recX, some ("Old number " ++ "9999999999" ++ " not found")) :=
  (c6_edit_phone_failure recX "9999999999" "2222222222").2.1 (by decide)

/-- C7: when `old` is present and `new` validates, `edit_phone` succeeds, the
first occurrence of `old` is removed and `new` is appended; in particular the
spec's concrete example holds. -/
theorem c7_edit_phone_success :
    (∀ (r : Record) (old nw : String), old ∈ r.phones →
      Phone.init nw = Except.ok nw →
      r.edit_phone old nw =
        ({ r with phones := removeFirstPhone r.phones old ++ [nw] }, none) ∧
      nw ∈ (r.edit_phone old nw).1.phones) ∧
    recX.edit_phone "1111111111" "2222222222"
      = (⟨"X", ["2222222222"], none⟩, none) ∧
    "1111111111" ∉ (recX.edit_phone "1111111111" "2222222222").1.phones := by
  refine ⟨?_, by decide, by decide⟩
  intro r old nw hm hv
  obtain ⟨q, hq⟩ := find_phone_of_mem hm
  have he : r.edit_phone old nw =
      ({ r with phones := removeFirstPhone r.phones old ++ [nw] }, none) := by
    simp only [Record.edit_phone, hq, hv]
    rw [removeFirstPhone_append_left [nw] hm]
  exact ⟨he, by rw [he]; exact List.mem_append_right _ (List.mem_singleton.mpr rfl)⟩

/-- C7 witness: on a concrete two-phone record, editing replaces the first
occurrence of the old number and appends the new one. -/
theorem c7_edit_phone_success_witness :
    recY.edit_phone "1111111111" "2222222222" =
      ({ recY with phones := removeFirstPhone recY.phones "1111111111" ++ ["2222222222"] }, none) ∧
    "2222222222" ∈ (recY.edit_phone "1111111111" "2222222222").1.phones :=
  c7_edit_phone_success.1 recY "1111111111" "2222222222" (by decide) (by decide)

/-- C8 evaluation: rendering a record whose birthday is absent still emits a
birthday suffix (", birthday: None"), because the guard `if self.birthday`
tests the always-truthy `Birthday` object instead of its value; a present
birthday renders its stored text. -/
theorem c8_render_absent_birthday :
    Record.render ⟨"Alice", [], none⟩
      = "Contact name: Alice, phones: , birthday: None" ∧
    Record.render ⟨"Bob", ["1234567890"], some "01.01.2000"⟩
      = "Contact name: Bob, phones: 1234567890, birthday: 01.01.2000" :=
  ⟨rfl, rfl⟩

/-- C10: `delete(name)` fails with the not-found error when `name` is absent,
and on a present name it succeeds and a subsequent `find` returns none. -/
theorem c10_delete (book : Book) (name : String) :
    (findB book name = none →
      deleteB book name = Except.error ("Record with name " ++ name ++ " not found.")) ∧
    (∀ r, findB book name = some r →
      ∃ b', deleteB book name = Except.ok b' ∧ findB b' name = none) := by
  constructor
  · intro h
    have h' : List.find? (fun e => e.1 == name) book = none := by
      simpa [findB] using h
    rw [List.find?_eq_none] at h'
    have hany : List.any book (fun e => e.1 == name) = false := by
      rw [List.any_eq_false]
      exact h'
    simp [deleteB, hany]
  · intro r h
    unfold findB at h
    cases he : List.find? (fun e => e.1 == name) book with
    | none => rw [he] at h; simp at h
    | some e =>
    have hmem : e ∈ book := List.mem_of_find?_eq_some he
    have hkey := List.find?_some he
    have hany : List.any book (fun e => e.1 == name) = true :=
      List.any_eq_true.mpr ⟨e, hmem, hkey⟩
    refine ⟨List.filter (fun e => !(e.1 == name)) book, by simp [deleteB, hany], ?_⟩
    have : List.find? (fun e => e.1 == name)
        (List.filter (fun e => !(e.1 == name)) book) = none := by
      rw [List.find?_eq_none]
      intro x hx
      have := (List.mem_filter.mp hx).2
      simp at this
      simp [this]
    simp [findB, this]

/-- C10 witness: deleting a present name from a concrete book succeeds and the
name is no longer found; deleting an absent name raises the not-found error. -/
theorem c10_delete_witness :
    (∃ b', deleteB bookJune "A" = Except.ok b' ∧ findB b' "A" = none) ∧
    deleteB bookJune "B" = Except.error ("Record with name " ++ "B" ++ " not found.") :=
  ⟨(c10_delete bookJune "A").2 ⟨"A", [], some "12.06.1990"⟩ (by decide),
   (c10_delete bookJune "B").1 (by decide)⟩

/-- C4 counterexample: a string of ten ARABIC-INDIC DIGIT THREE characters
(U+0663) is not made of ASCII digits, yet `Phone.__init__` accepts it and
stores it verbatim, because Python's `str.isdigit` accepts every Unicode
decimal digit. -/
theorem c4_phone_counterexample :
    Phone.init "٣٣٣٣٣٣٣٣٣٣" = Except.ok "٣٣٣٣٣٣٣٣٣٣" ∧
    specAsciiPhone "٣٣٣٣٣٣٣٣٣٣" = false := by
  constructor
  · rfl
  · rfl

/-- C4 amended: `Phone.create(raw)` succeeds and stores `raw` verbatim iff
`raw` has length 10 and every character is a digit in the sense of Python's
`str.isdigit` (Unicode decimal digits included, not only ASCII); any other
string fails with the validation error. -/
theorem c4_phone_amended (s : String) :
    (Phone.init s = Except.ok s ↔
      (s.length = 10 ∧ ∀ c ∈ s.data, pyIsDigitCp c.toNat)) ∧
    (¬(s.length = 10 ∧ ∀ c ∈ s.data, pyIsDigitCp c.toNat) →
      Phone.init s = Except.error "The phone number must be a string of 10 digits") := by
  have hlen : s.length = s.data.length := rfl
  have hcond : (pyStrIsdigit s ∧ s.length = 10) ↔
      (s.length = 10 ∧ ∀ c ∈ s.data, pyIsDigitCp c.toNat) := by
    unfold pyStrIsdigit pyTruthy
    constructor
    · rintro ⟨hd, h10⟩
      simp only [Bool.and_eq_true, List.all_eq_true] at hd
      exact ⟨h10, hd.2⟩
    · rintro ⟨h10, hall⟩
      refine ⟨?_, h10⟩
      have hne : s.data ≠ [] := by
        intro hnil
        rw [hlen, hnil] at h10
        simp at h10
      simp only [Bool.and_eq_true, Bool.not_eq_true', List.all_eq_true]
      exact ⟨by simpa [List.isEmpty_iff] using hne, hall⟩
  constructor
  · unfold Phone.init
    constructor
    · intro h
      by_cases hc : pyStrIsdigit s ∧ s.length = 10
      · exact hcond.mp hc
      · rw [if_neg hc] at h
        cases h
    · intro h
      rw [if_pos (hcond.mpr h)]
  · intro h
    unfold Phone.init
    rw [if_neg (fun hc => h (hcond.mp hc))]

/-- C4 witness for the amended theorem: a concrete all-ASCII 10-digit string
satisfies the right-hand side and is accepted verbatim. -/
theorem c4_phone_amended_witness :
    Phone.init "0123456789" = Except.ok "0123456789" :=
  (c4_phone_amended "0123456789").1.mpr (by decide)

/-- C1 counterexample: with `datetime.now()` at 10:00 on Monday 2024-06-10
and a stored birthday of 10.06.1990, the projection onto the current year has
exactly today's date — yet the code rolls it forward to 2025, because the
comparison `this_year_birthday < today` is between a midnight datetime and
the full `datetime.now()`.  The claim says a projected birthday equal to
today is NOT rolled forward. -/
theorem c1_rollover_counterexample :
    replaceYear ⟨1990, 6, 10⟩ nowMon10June.date.year = Except.ok ⟨2024, 6, 10⟩ ∧
    (⟨2024, 6, 10⟩ : Date) = nowMon10June.date ∧
    rolledCandidate ⟨1990, 6, 10⟩ nowMon10June = Except.ok ⟨2025, 6, 10⟩ := by
  refine ⟨rfl, rfl, ?_⟩
  rfl

/-- C1 amended: the year rollover happens iff the projected midnight datetime
is strictly before the full `datetime.now()` value; at date granularity the
projection is rolled forward when its date is strictly before today's date OR
equal to it with the current time past midnight — so a projected birthday
equal to today IS rolled forward except when the query runs exactly at
midnight. -/
theorem c1_rollover_amended (bd : Date) (now : PyNow) (ty : Date)
    (htod : now.tod < microsPerDay)
    (hp : replaceYear bd now.date.year = Except.ok ty) :
    rolledCandidate bd now =
      (if midnightBefore ty now then replaceYear bd (now.date.year + 1)
       else Except.ok ty) ∧
    (midnightBefore ty now ↔
      (ty.toOrd < now.date.toOrd ∨ (ty.toOrd = now.date.toOrd ∧ 0 < now.tod))) := by
  constructor
  · unfold rolledCandidate
    rw [hp]
    rfl
  · unfold midnightBefore PyNow.micros microsPerDay
    unfold microsPerDay at htod
    generalize ty.toOrd = a
    generalize now.date.toOrd = b
    omega

/-- C1 witness: the amended rollover characterisation applied at the concrete
instant 2024-06-10 10:00 and birthday 10.06.1990: the dates are equal, the
time of day is positive, and the candidate is rolled to 2025. -/
theorem c1_rollover_amended_witness :
    (rolledCandidate ⟨1990, 6, 10⟩ nowMon10June =
      (if midnightBefore ⟨2024, 6, 10⟩ nowMon10June then
        replaceYear ⟨1990, 6, 10⟩ (nowMon10June.date.year + 1)
       else Except.ok ⟨2024, 6, 10⟩)) ∧
    (midnightBefore ⟨2024, 6, 10⟩ nowMon10June ↔
      (Date.toOrd ⟨2024, 6, 10⟩ < nowMon10June.date.toOrd ∨
        (Date.toOrd ⟨2024, 6, 10⟩ = nowMon10June.date.toOrd ∧ 0 < nowMon10June.tod))) :=
  c1_rollover_amended ⟨1990, 6, 10⟩ nowMon10June ⟨2024, 6, 10⟩ (by decide) (by decide)

/-- C2: the weekend adjustment is applied exactly once, to the already-rolled
candidate (`adjustedCandidate` is literally the rollover result fed to
`weekendShift`, with no second rollover test): a Saturday candidate moves
forward exactly two days, a Sunday candidate exactly one day, and any other
candidate is unchanged. -/
theorem c2_weekend_shift :
    (∀ (bd : Date) (now : PyNow),
      adjustedCandidate bd now = rolledCandidate bd now >>= weekendShift) ∧
    (∀ c : Date,
      (pyWeekday c = 5 → weekendShift c = checkedAddDays 2 c) ∧
      (pyWeekday c = 6 → weekendShift c = checkedAddDays 1 c) ∧
      (pyWeekday c ≠ 5 → pyWeekday c ≠ 6 → weekendShift c = Except.ok c)) ∧
    (∀ (c c' : Date), c.ValidDate →
      (checkedAddDays 2 c = Except.ok c' → c'.toOrd = c.toOrd + 2) ∧
      (checkedAddDays 1 c = Except.ok c' → c'.toOrd = c.toOrd + 1)) := by
  refine ⟨fun bd now => rfl, ?_, ?_⟩
  · intro c
    refine ⟨?_, ?_, ?_⟩
    · intro h5
      unfold weekendShift
      rw [if_pos h5]
    · intro h6
      unfold weekendShift
      rw [if_neg (by omega : ¬pyWeekday c = 5), if_pos h6]
    · intro h5 h6
      unfold weekendShift
      rw [if_neg h5, if_neg h6]
  · intro c c' hv
    have h1 := succDate_spec c hv
    have h2 := succDate_spec (succDate c) h1.2
    constructor
    · intro h
      simp only [checkedAddDays] at h
      split at h
      · have hc' : c' = succDate^[2] c := by
          injection h with h
          exact h.symm
        rw [hc', Function.iterate_succ_apply', Function.iterate_one, h2.1, h1.1]
      · cases h
    · intro h
      simp only [checkedAddDays] at h
      split at h
      · have hc' : c' = succDate^[1] c := by
          injection h with h
          exact h.symm
        rw [hc', Function.iterate_one, h1.1]
      · cases h

/-- C2 witness: Saturday 2024-06-15 (weekday 5) is shifted by exactly two days
to Monday 2024-06-17, and the shift is the single step after the rollover. -/
theorem c2_weekend_shift_witness :
    (adjustedCandidate ⟨1990, 6, 15⟩ nowMon10June =
      rolledCandidate ⟨1990, 6, 15⟩ nowMon10June >>= weekendShift) ∧
    weekendShift ⟨2024, 6, 15⟩ = checkedAddDays 2 ⟨2024, 6, 15⟩ ∧
    (checkedAddDays 2 ⟨2024, 6, 15⟩ = Except.ok ⟨2024, 6, 17⟩ →
      Date.toOrd ⟨2024, 6, 17⟩ = Date.toOrd ⟨2024, 6, 15⟩ + 2) :=
  ⟨c2_weekend_shift.1 ⟨1990, 6, 15⟩ nowMon10June,
   (c2_weekend_shift.2.1 ⟨2024, 6, 15⟩).1 (by decide),
   (c2_weekend_shift.2.2 ⟨2024, 6, 15⟩ ⟨2024, 6, 17⟩ (by decide)).1⟩


/-- C5 counterexample: `"1.1.2000"` is not in the two-digit/two-digit/
four-digit shape, yet `Birthday.__init__` accepts it, because `strptime`'s
`%d`, `%m` and `%Y` directives also match one-digit day and month and
shorter years. -/
theorem c5_birthday_counterexample :
    Birthday.init (some "1.1.2000") = Except.ok (some "1.1.2000") ∧
    specStrictShape "1.1.2000" = false := ⟨rfl, rfl⟩

/-- C5 amended: `Birthday.create` yields the none variant on an absent or
empty value; it accepts every calendar-valid strict `DD.MM.YYYY` string, but
also the lenient shapes `strptime` admits — a one-digit or space-padded
single-digit day, a one-digit month, with the year always exactly four
digits; every accepted string denotes a calendar-valid Gregorian date with
year in `1..9999`; and any non-empty string `strptime` rejects — including
well-formed-but-invalid dates such as `31.02.2000` and short years such as
`1.1.200` — fails with `ValidationError`. -/
theorem c5_birthday_amended :
    (Birthday.init none = Except.ok none) ∧
    (Birthday.init (some "") = Except.ok (some "")) ∧
    (∀ s : String, specStrictShape s = true →
      Birthday.init (some s) = Except.ok (some s)) ∧
    (∀ (s : String) (dt : Date), strptimeDMY s = some dt →
      dt.ValidDate ∧ dt.year ≤ 9999) ∧
    (∀ s : String, pyTruthy s = true → strptimeDMY s = none →
      Birthday.init (some s) = Except.error "Birthday must be in format DD.MM.YYYY") ∧
    (Birthday.init (some "1.1.2000") = Except.ok (some "1.1.2000")) ∧
    (Birthday.init (some "31.02.2000")
      = Except.error "Birthday must be in format DD.MM.YYYY") ∧
    (Birthday.init (some " 9.06.1990") = Except.ok (some " 9.06.1990")) ∧
    (Birthday.init (some "1.1.200")
      = Except.error "Birthday must be in format DD.MM.YYYY") := by
  refine ⟨rfl, rfl, specStrictShape_accepted, fun s dt h => strptime_some_valid h,
    ?_, rfl, rfl, rfl, rfl⟩
  intro s htr hnone
  simp [Birthday.init, htr, hnone]

/-- C5 witness: the amended theorem applied at a strict-shape date and at a
rejected malformed date. -/
theorem c5_birthday_amended_witness :
    Birthday.init (some "01.01.2000") = Except.ok (some "01.01.2000") ∧
    Birthday.init (some "99.99.9999")
      = Except.error "Birthday must be in format DD.MM.YYYY" :=
  ⟨c5_birthday_amended.2.2.1 "01.01.2000" (by decide),
   c5_birthday_amended.2.2.2.2.1 "99.99.9999" (by decide) (by decide)⟩

/-- C9: a record whose stored birthday text parses to February 29 (of a leap
year — parse success forces the year to be leap) makes `get_upcoming_birthdays`
raise an uncaught `ValueError` from `replace(year=...)` whenever the current
year is not a leap year: the `try`/`except` guards only the `strptime` call,
so the record is not silently skipped and the whole query fails. -/
theorem c9_feb29_projection_raises (book : Book) (now : PyNow) (name : String)
    (r : Record) (s : String) (bd : Date)
    (hmem : (name, r) ∈ book) (hb : r.birthday = some s)
    (hp : strptimeDMY s = some bd) (hm2 : bd.month = 2) (hd29 : bd.day = 29)
    (hnl : isLeap now.date.year = false) :
    ∃ e, get_upcoming_birthdays book now = Except.error e :=
  getUB_error_of_mem book now name r hmem
    ⟨_, processRecord_error_feb29 hb hp hm2 hd29 hnl⟩

/-- C9 witness: a concrete book holding birthday text "29.02.2000", queried
in the non-leap year 2025, makes the whole query raise. -/
theorem c9_feb29_projection_raises_witness :
    ∃ e, get_upcoming_birthdays bookFeb29 nowNonLeap = Except.error e :=
  c9_feb29_projection_raises bookFeb29 nowNonLeap "Bob"
    ⟨"Bob", [], some "29.02.2000"⟩ "29.02.2000" ⟨2000, 2, 29⟩
    (by decide) (by decide) (by decide) (by decide) (by decide) (by decide)

/-- C3: on a successful run over a book with unique names, a record appears
in the result iff it has a present, parseable birthday whose adjusted (rolled
and weekend-shifted) candidate has `0 <= days_until <= 7`; every entry it
contributes reports the rendered adjusted date; a record with no birthday is
never included. -/
theorem c3_window_inclusion (book : Book) (now : PyNow)
    (res : List (String × String)) (name : String) (r : Record)
    (hnd : (book.map Prod.fst).Nodup)
    (hok : get_upcoming_birthdays book now = Except.ok res)
    (hfind : findB book name = some r) :
    ((∃ ds, (name, ds) ∈ res) ↔
      (∃ s bd cand, r.birthday = some s ∧ pyTruthy s = true ∧
        strptimeDMY s = some bd ∧ adjustedCandidate bd now = Except.ok cand ∧
        0 ≤ daysUntil cand now ∧ daysUntil cand now ≤ 7)) ∧
    (∀ ds, (name, ds) ∈ res →
      ∃ s bd cand, r.birthday = some s ∧ strptimeDMY s = some bd ∧
        adjustedCandidate bd now = Except.ok cand ∧ ds = renderDate cand) ∧
    (r.birthday = none → ∀ ds, (name, ds) ∉ res) := by
  have hmem : (name, r) ∈ book := findB_mem hfind
  have entries := getUB_ok_entries book now res hok
  have included := getUB_ok_included book now res hok
  refine ⟨⟨?_, ?_⟩, ?_, ?_⟩
  · rintro ⟨ds, hds⟩
    obtain ⟨r2, hr2, hpr⟩ := entries name ds hds
    have heq : r2 = r := keys_nodup_unique hnd hr2 hmem
    subst heq
    obtain ⟨s, bd, cand, h1, h2, h3, h4, h5, h6, h7⟩ :=
      (processRecord_some_iff r2 now ds).mp hpr
    exact ⟨s, bd, cand, h1, h2, h3, h4, h5, h6⟩
  · rintro ⟨s, bd, cand, h1, h2, h3, h4, h5, h6⟩
    have hpr : processRecord r now = Except.ok (some (renderDate cand)) :=
      (processRecord_some_iff r now (renderDate cand)).mpr
        ⟨s, bd, cand, h1, h2, h3, h4, h5, h6, rfl⟩
    exact ⟨renderDate cand, included name r (renderDate cand) hmem hpr⟩
  · intro ds hds
    obtain ⟨r2, hr2, hpr⟩ := entries name ds hds
    have heq : r2 = r := keys_nodup_unique hnd hr2 hmem
    subst heq
    obtain ⟨s, bd, cand, h1, h2, h3, h4, h5, h6, h7⟩ :=
      (processRecord_some_iff r2 now ds).mp hpr
    exact ⟨s, bd, cand, h1, h3, h4, h7⟩
  · intro hnone ds hds
    obtain ⟨r2, hr2, hpr⟩ := entries name ds hds
    have heq : r2 = r := keys_nodup_unique hnd hr2 hmem
    subst heq
    rw [processRecord_none r2 now hnone] at hpr
    simp at hpr

/-- C3 witness: on the concrete one-record June book at Monday 2024-06-10
10:00, the record is included and the reported date is the adjusted
12.06.2024. -/
theorem c3_window_inclusion_witness :
    ((∃ ds, ("A", ds) ∈ [("A", "12.06.2024")]) ↔
      (∃ s bd cand, recA.birthday = some s ∧ pyTruthy s = true ∧
        strptimeDMY s = some bd ∧
        adjustedCandidate bd nowMon10June = Except.ok cand ∧
        0 ≤ daysUntil cand nowMon10June ∧ daysUntil cand nowMon10June ≤ 7)) ∧
    (∀ ds, ("A", ds) ∈ [("A", "12.06.2024")] →
      ∃ s bd cand, recA.birthday = some s ∧ strptimeDMY s = some bd ∧
        adjustedCandidate bd nowMon10June = Except.ok cand ∧
        ds = renderDate cand) ∧
    (recA.birthday = none → ∀ ds, ("A", ds) ∉ [("A", "12.06.2024")]) :=
  c3_window_inclusion bookJune nowMon10June [("A", "12.06.2024")] "A" recA
    (by decide) (by decide) (by decide)

end Main
